import Mathlib

/-!
Verification of the berserker load generator against its specification.

The Rust sources are shallowly embedded: machine integers (`u16`, `u32`,
`usize`) become `Nat` with explicit `% 2^w` where the source's wrapping
(release-mode) arithmetic matters, fallible steps become `Option`/`Except`,
and the network client's stateful main loop becomes explicit state passing.
-/

/- ## Network worker: local endpoint assignment (src/worker/network.rs) -/

/-- `Ipv4Address::to_bits`: the big-endian 32-bit value of the four octets. -/
def ipv4ToBits (a : Nat × Nat × Nat × Nat) : Nat :=
  ((a.1 * 256 + a.2.1) * 256 + a.2.2.1) * 256 + a.2.2.2

/-- `Ipv4Address::from_bits`: split a 32-bit value into four octets,
big-endian. -/
def ipv4FromBits (bits : Nat) : Nat × Nat × Nat × Nat :=
  (bits / 2 ^ 24 % 256, bits / 2 ^ 16 % 256, bits / 2 ^ 8 % 256, bits % 256)

/-- Embeds `get_local_addr_port` (src/worker/network.rs, lines 389-404).
`addr` is the four octets of the base address (each `< 256`),
`conns_per_addr : u16`, `index : u32`.  The source computes
`local_port = 49152 + (index % conns_per_addr as u32) as u16` (a `u16`
addition, which wraps modulo `2^16` under release semantics) and
`local_addr = Ipv4Address::from_bits(addr.to_bits() + addr_index + 1)`
with `addr_index = index / conns_per_addr` (a `u32` sum, wrapping modulo
`2^32`). -/
def get_local_addr_port (addr : Nat × Nat × Nat × Nat) (conns_per_addr : Nat)
    (index : Nat) : (Nat × Nat × Nat × Nat) × Nat :=
  let local_port := (49152 + index % conns_per_addr) % 2 ^ 16
  let addr_index := index / conns_per_addr
  let local_addr := ipv4FromBits ((ipv4ToBits addr + addr_index + 1) % 2 ^ 32)
  (local_addr, local_port)

example :
    get_local_addr_port (192, 168, 1, 100) 10 15 = ((192, 168, 1, 102), 49157) := by
  decide

example :
    get_local_addr_port (192, 168, 1, 255) 9 15 = ((192, 168, 2, 1), 49158) := by
  decide

example :
    get_local_addr_port (192, 255, 255, 255) 12 15 = ((193, 0, 0, 1), 49155) := by
  decide

example :
    get_local_addr_port (192, 168, 1, 100) 1 65636 = ((192, 169, 1, 201), 49152) := by
  decide

example :
    get_local_addr_port (10, 0, 0, 1) 100 1 = ((10, 0, 0, 2), 49153) := by
  decide

/- ## Port allocator (src/lib.rs `run`, src/worker/mod.rs `Worker::new`) -/

/-- The allocation step performed by the Endpoints arm of `Worker::new`
(src/worker/mod.rs, lines 48-67) on the `usize` cursor threaded through
`run` (src/lib.rs starts both bounds at 1024): `*lower_bound =
*upper_bound; *upper_bound += n_ports` hands the worker the slice
`(lower, n)` and leaves the cursor at `(lower + n) % 2^64` — the
release-mode `usize` addition wraps modulo `2^64`, and a draw (itself a
`u64` truncated with `as usize`) can be as large as `2^64 - 1`.  Returns
`((start, len), new_cursor)`. -/
def allocate64 (cursor n : Nat) : (Nat × Nat) × Nat :=
  ((cursor, n), (cursor + n) % 2 ^ 64)

/-- The allocation step with an unbounded cursor: the abstraction of
`allocate64` on runs whose cumulative draws never reach `2^64`, where the
`usize` addition cannot wrap.  The agreement is proved below
(`cursorFrom64_eq_cursorFrom`, `slicesFrom64_eq_slicesFrom`); the
zero-draw and single-small-draw facts stated against this abstraction
therefore coincide with the programme. -/
def allocate (cursor n : Nat) : (Nat × Nat) × Nat :=
  ((cursor, n), cursor + n)

/-- The slices handed out by successive Endpoints constructions when the
`usize` cursor starts at `c` and the distribution draws are `ds`. -/
def slicesFrom64 (c : Nat) : List Nat → List (Nat × Nat)
  | [] => []
  | n :: ds => (allocate64 c n).1 :: slicesFrom64 (allocate64 c n).2 ds

/-- `slicesFrom` over the unbounded-cursor abstraction. -/
def slicesFrom (c : Nat) : List Nat → List (Nat × Nat)
  | [] => []
  | n :: ds => (allocate c n).1 :: slicesFrom (allocate c n).2 ds

/-- Port slices for a whole run: the `usize` cursor starts at 1024
(src/lib.rs, `let mut lower = 1024; let mut upper = 1024`). -/
def portSlices64 (ds : List Nat) : List (Nat × Nat) :=
  slicesFrom64 1024 ds

/-- `portSlices64` over the unbounded-cursor abstraction. -/
def portSlices (ds : List Nat) : List (Nat × Nat) :=
  slicesFrom 1024 ds

/-- The `usize` allocator cursor after processing the draws `ds` from
cursor `c`. -/
def cursorFrom64 (c : Nat) : List Nat → Nat
  | [] => c
  | n :: ds => cursorFrom64 (allocate64 c n).2 ds

/-- `cursorFrom64` over the unbounded-cursor abstraction. -/
def cursorFrom (c : Nat) : List Nat → Nat
  | [] => c
  | n :: ds => cursorFrom (allocate c n).2 ds

example : portSlices64 [2, 3, 0, 4] =
    [(1024, 2), (1026, 3), (1029, 0), (1029, 4)] := by decide

example : portSlices [2, 3, 0, 4] =
    [(1024, 2), (1026, 3), (1029, 0), (1029, 4)] := by decide

/- ## Endpoints worker (src/worker/endpoints.rs) -/

/-- Worker failure kind (src/lib.rs `WorkerError`). -/
inductive WorkerError
  | internal
deriving DecidableEq

/-- `PortRange` (src/worker/endpoints.rs, lines 8-11): `start` and `length`
are `u16` fields. -/
structure PortRange where
  start : Nat
  length : Nat
deriving DecidableEq

/-- `PortRange::get_range` (src/worker/endpoints.rs, lines 18-21): the end
of the range is the `u16` sum `start + length`, which wraps modulo `2^16`
under release semantics.  Returns the pair `(start, end)` describing the
Rust range `start..end`. -/
def PortRange.get_range (r : PortRange) : Nat × Nat :=
  (r.start, (r.start + r.length) % 2 ^ 16)

/-- The ports iterated by a Rust range `lo..hi` over `u16`: empty whenever
`hi ≤ lo`. -/
def rangePorts (lo hi : Nat) : List Nat :=
  List.range' lo (hi - lo)

/-- `EndpointWorker::new` (src/worker/endpoints.rs, line 46): the worker
stores `PortRange::new(lower, upper - lower)`. -/
def endpointWorkerPorts (lower upper : Nat) : PortRange :=
  ⟨lower, upper - lower⟩

/-- The listener ports for which `EndpointWorker::run_payload`
(src/worker/endpoints.rs, lines 55-71) spawns one `listen` thread each:
one per port of `self.ports.get_range()`. -/
def spawnedListeners (r : PortRange) : List Nat :=
  rangePorts r.get_range.1 r.get_range.2

/-- `EndpointWorker::run_payload`: spawns `listen(port, restart_interval)`
per port of the range, joins all helpers and returns `Ok`.  The observable
retained by the embedding is the list of ports listened on. -/
def endpointRunPayload (r : PortRange) : Except WorkerError (List Nat) :=
  .ok (spawnedListeners r)

/- ## Supervisor (src/lib.rs `run`): fan-out and reaper -/

/-- Wait errors as the reaper distinguishes them in the claims: "no such
child" (`ECHILD`) versus everything else. -/
inductive Errno
  | echild
  | other (code : Nat)
deriving DecidableEq

/-- The reaper thread (src/lib.rs, lines 230-235): for every recorded child
in order it runs `waitpid(child, None).unwrap()`.  The `unwrap` turns
*every* wait failure into a panic, which aborts the thread; the embedding
returns the error.  `res` gives each child's wait outcome; on success the
reaper returns the list of children it waited on. -/
def reaper (res : Nat → Except Errno Unit) : List Nat → Except Errno (List Nat)
  | [] => .ok []
  | c :: cs =>
    match res c with
    | .ok _ => (reaper res cs).map fun ws => c :: ws
    | .error e => .error e

/-- Modelled from the spec: the reaper the claim describes, which tolerates
`ECHILD` as non-fatal and continues with the remaining children, while any
other wait failure is fatal.  For comparison with `reaper`, the embedding
of the source. -/
def reaperSpecTolerant (res : Nat → Except Errno Unit) :
    List Nat → Except Errno (List Nat)
  | [] => .ok []
  | c :: cs =>
    match res c with
    | .ok _ => (reaperSpecTolerant res cs).map fun ws => c :: ws
    | .error .echild => reaperSpecTolerant res cs
    | .error e => .error e

/-- A wait oracle under which child 2 has already been reaped: waiting on
it yields `ECHILD`, every other wait succeeds. -/
def echildOnTwo : Nat → Except Errno Unit :=
  fun c => if c = 2 then .error .echild else .ok ()

/-- One forked child of the supervisor's fan-out: the core id it was
constructed for, its worker index, and whether the child pinned itself
(`core_affinity::set_for_current`) to that core. -/
structure ChildSpawn where
  cpu : Nat
  process : Nat
  pinned : Bool
deriving DecidableEq

/-- The core set computed by `run` (src/lib.rs, lines 167-172): all online
cores when `per_core`, else the single `CoreId { id: 0 }`. -/
def coreIdsFor (per_core : Bool) (online : List Nat) : List Nat :=
  if per_core then online else [0]

/-- The children forked by `run` (src/lib.rs, lines 174-199): one per pair
of `iproduct!(core_ids, 0..workers)`, in iteration order.  Each child runs
`core_affinity::set_for_current(cpu)` only under `if config.per_core`, so
`pinned := per_core`. -/
def fanout (per_core : Bool) (online : List Nat) (workers : Nat) :
    List ChildSpawn :=
  (coreIdsFor per_core online).flatMap fun c =>
    (List.range workers).map fun p => ⟨c, p, per_core⟩

/- ## Syscalls worker (src/worker/syscalls.rs) -/

/-- Construction failure of an exponential distribution. -/
inductive ExpError
  | lambdaTooSmall
deriving DecidableEq

/-- `rand_distr::Exp::new`, per the crate's documented contract (its error
is raised for "`lambda < 0` or `nan`"): construction fails exactly for
negative rates; `lambda = 0` is a valid distribution (every sample is
infinite).  Rates are embedded as rationals. -/
def expNew (lambda : ℚ) : Except ExpError ℚ :=
  if lambda < 0 then .error .lambdaTooSmall else .ok lambda

/-- The setup that `SyscallsWorker::run_payload` (src/worker/syscalls.rs,
line 62) performs before entering its loop:
`Exp::new(arrival_rate).unwrap()` — an error here is a panic that aborts
the worker before any syscall is issued. -/
def syscallsSetup (arrival_rate : ℚ) : Except ExpError ℚ :=
  expNew arrival_rate

/-- The observable outcome of one iteration of the `run_payload` loop
(src/worker/syscalls.rs, lines 69-105). -/
structure SyscallsIter where
  /-- The iteration counter after the step (`counter += 1`). -/
  counter : Nat
  /-- Whether the step sampled the Exp distribution and slept: skipped by
  `if tight_loop { continue }`. -/
  paced : Bool
deriving DecidableEq

/-- One iteration of the syscalls payload loop: increment the counter,
issue the syscall (result ignored by `do_syscall`), then pace only when
`tight_loop` is off. -/
def syscallsLoopIter (tight_loop : Bool) (counter : Nat) : SyscallsIter :=
  { counter := counter + 1, paced := !tight_loop }

/- ## Network client: global send throttle (src/worker/network.rs) -/

/-- The send throttle of the client main loop (src/worker/network.rs,
lines 276-298).  `ts` is the sequence of wall-clock instants (in ms) at
which some socket of the population passes `may_send` and the loop reads
`send_timer.elapsed()`; `t0` is the instant the timer was last reset.  A
check at instant `t` sends — `elapsed > send_interval` — exactly when
`interval < t - t0`, and a send resets the timer to `t`.  Returns the
instants at which sends happen. -/
def sendTrace (interval : Nat) (t0 : Nat) : List Nat → List Nat
  | [] => []
  | t :: ts =>
    if interval < t - t0 then t :: sendTrace interval t ts
    else sendTrace interval t0 ts

example : sendTrace 100 0 [50, 150, 200, 260, 400, 505] =
    [150, 260, 400, 505] := by decide

/- ## Network client: connection population (src/worker/network.rs `start_client`) -/

/-- The configuration slice of the network client relevant to the
population manager (src/worker/network.rs, lines 102-116). -/
structure NetCfg where
  connections_static : Nat
  connections_dyn_max : Nat
  preempt : Bool
deriving DecidableEq

/-- Metadata kept per dynamic socket:
`{handle: (SystemTime::now(), lifetime)}`, with instants and lifetimes in
milliseconds. -/
structure DynEntry where
  opened_at : Nat
  lifetime_ms : Nat
deriving DecidableEq

/-- The client's population state: `slots` is the `SocketSet` slab
(`true` = occupied, the handle is the slot index, iteration in slot
order, as in smoltcp's managed socket set), `dyn` the `dynamic_sockets`
map as an association list keyed by handle, `total_conns` the counter of
line 169. -/
structure ClientState where
  slots : List Bool
  dyn : List (Nat × DynEntry)
  total_conns : Nat
deriving DecidableEq

/-- `SocketSet::iter`: the occupied slot indices, in slot order. -/
def occupiedHandles (slots : List Bool) : List Nat :=
  (List.range slots.length).filter fun i => slots.getD i false

/-- `SocketSet::add`: place the socket into the first free slot, else grow
the slab; returns the handle and the new slab. -/
def addSocket (slots : List Bool) : Nat × List Bool :=
  match slots.findIdx? (fun b => !b) with
  | some i => (i, slots.set i true)
  | none => (slots.length, slots ++ [true])

/-- `dynamic_sockets.get(&h)`. -/
def lookupDyn (dyn : List (Nat × DynEntry)) (h : Nat) : Option DynEntry :=
  (dyn.find? fun kv => kv.1 == h).map (·.2)

/-- The state after `start_client`'s setup (lines 128-169):
`connections_static` sockets occupy the first slots, the dynamic map is
empty, `total_conns` starts at the static count. -/
def initClientState (cfg : NetCfg) : ClientState :=
  { slots := List.replicate cfg.connections_static true
    dyn := []
    total_conns := cfg.connections_static }

/-- The arrival step (lines 181-235), run when the arrivals timer exceeds
the sampled interval.  `victimIdx` is the draw of
`gen_range(0..connections_dyn_max)` (consulted only on the preemption
path), `now` the current instant and `lifetime` the sampled lifetime, in
ms.  `total_conns` is incremented up front; if the dynamic map is at
capacity and preemption is on, the victim is `sockets.iter().nth(idx)` —
an index into the *whole* socket set — removed from the dynamic map and
queued for close; a new socket is added and registered as dynamic only if
the map is below capacity afterwards.  `none` marks the source's `unwrap`
panic on a missing victim. -/
def arrivalStep (cfg : NetCfg) (victimIdx now lifetime : Nat)
    (s : ClientState) : Option (ClientState × List Nat) :=
  let total := s.total_conns + 1
  let pre :=
    if s.dyn.length = cfg.connections_dyn_max ∧ cfg.preempt then
      match (occupiedHandles s.slots)[victimIdx]? with
      | none => none
      | some key => some (s.dyn.filter (fun kv => kv.1 != key), [key])
    else
      some (s.dyn, ([] : List Nat))
  match pre with
  | none => none
  | some (dyn1, closes) =>
    if dyn1.length < cfg.connections_dyn_max then
      let hs := addSocket s.slots
      some ({ slots := hs.2, dyn := dyn1 ++ [(hs.1, ⟨now, lifetime⟩)],
              total_conns := total }, closes)
    else
      some ({ s with dyn := dyn1, total_conns := total }, closes)

/-- The per-socket maintenance pass (lines 238-299) restricted to its
population effects: every dynamic socket whose lifetime has expired is
closed — removed from the dynamic map and queued in `close_sockets`.
(The `can_recv` drain and the throttled send touch no population state;
the send timer is modelled by `sendTrace`.) -/
def expiryPass (now : Nat) (s : ClientState) (closes : List Nat) :
    ClientState × List Nat :=
  (occupiedHandles s.slots).foldl
    (fun acc h =>
      match lookupDyn acc.1.dyn h with
      | some e =>
        if e.opened_at + e.lifetime_ms < now then
          ({ acc.1 with dyn := acc.1.dyn.filter fun kv => kv.1 != h },
            acc.2 ++ [h])
        else acc
      | none => acc)
    (s, closes)

/-- The close pass (lines 301-306): remove every queued handle from the
socket set and decrement `total_conns`. -/
def closePass (s : ClientState) (closes : List Nat) : ClientState :=
  closes.foldl
    (fun st h =>
      { st with slots := st.slots.set h false,
                total_conns := st.total_conns - 1 })
    s

/-- One iteration of the client main loop (lines 173-323), restricted to
its population effects — `iface.poll` and the `phy_wait` at the loop's
end change neither the socket set nor the dynamic map nor `total_conns`.
`arrivalDue` is the timer test of line 181. -/
def loopIter (cfg : NetCfg) (arrivalDue : Bool) (victimIdx now lifetime : Nat)
    (s : ClientState) : Option ClientState :=
  match (if arrivalDue then arrivalStep cfg victimIdx now lifetime s
         else some (s, ([] : List Nat))) with
  | none => none
  | some (s1, closes) =>
    let step2 := expiryPass now s1 closes
    some (closePass step2.1 step2.2)

/-- The invariant of the claim: `total_conns` equals the number of static
sockets plus the number of entries in the dynamic map. -/
def connInvariant (cfg : NetCfg) (s : ClientState) : Prop :=
  s.total_conns = cfg.connections_static + s.dyn.length

/- Theorems about the embedded definitions. -/

/-- Round trip: splitting a 32-bit value into octets and recombining is the
identity below `2^32`. -/
theorem ipv4ToBits_ipv4FromBits (x : Nat) (hx : x < 2 ^ 32) :
    ipv4ToBits (ipv4FromBits x) = x := by
  unfold ipv4ToBits ipv4FromBits
  simp only
  omega

/-- Each octet produced by `ipv4FromBits` is a valid byte. -/
theorem ipv4FromBits_octets_lt (x : Nat) :
    (ipv4FromBits x).1 < 256 ∧ (ipv4FromBits x).2.1 < 256 ∧
      (ipv4FromBits x).2.2.1 < 256 ∧ (ipv4FromBits x).2.2.2 < 256 := by
  unfold ipv4FromBits
  refine ⟨?_, ?_, ?_, ?_⟩ <;> simp only <;> omega

/-- **C1 counterexample.** The claim states the local port is
`49152 + (i mod C)` for every grouping factor `C ≥ 1`.  At base address
`10.0.0.1`, `C = 16385`, `i = 16384` the programme's `u16` addition wraps:
the returned port is `0`, not `49152 + (16384 mod 16385) = 65536`. -/
theorem get_local_addr_port_port_wrap_cex :
    (get_local_addr_port (10, 0, 0, 1) 16385 16384).2 = 0
      ∧ (get_local_addr_port (10, 0, 0, 1) 16385 16384).2 ≠
          49152 + 16384 % 16385 := by
  decide

/-- **C1 (amended).** For every base address `A` (four octets), every
grouping factor `C ≥ 1` and every global connection index `i`,
`get_local_addr_port` returns the local port `(49152 + (i mod C)) mod 2^16`
(the `u16` sum, which equals `49152 + (i mod C)` whenever
`i mod C < 16384`) and a local address whose big-endian 32-bit value is
`(A + ⌊i/C⌋ + 1) mod 2^32` — carry propagated across the four octets, each
of which is a valid byte — wrapping around modulo `2^32` past
`255.255.255.255`. -/
theorem get_local_addr_port_spec (A : Nat × Nat × Nat × Nat) (C i : Nat)
    (hC : 1 ≤ C) :
    (get_local_addr_port A C i).2 = (49152 + i % C) % 2 ^ 16
      ∧ (i % C < 16384 → (get_local_addr_port A C i).2 = 49152 + i % C)
      ∧ ipv4ToBits (get_local_addr_port A C i).1 =
          (ipv4ToBits A + i / C + 1) % 2 ^ 32
      ∧ (get_local_addr_port A C i).1.1 < 256
      ∧ (get_local_addr_port A C i).1.2.1 < 256
      ∧ (get_local_addr_port A C i).1.2.2.1 < 256
      ∧ (get_local_addr_port A C i).1.2.2.2 < 256 := by
  refine ⟨rfl, ?_, ?_, ?_, ?_, ?_, ?_⟩
  · intro h
    show (49152 + i % C) % 2 ^ 16 = 49152 + i % C
    exact Nat.mod_eq_of_lt (by omega)
  · exact ipv4ToBits_ipv4FromBits _ (Nat.mod_lt _ (by norm_num))
  · exact (ipv4FromBits_octets_lt _).1
  · exact (ipv4FromBits_octets_lt _).2.1
  · exact (ipv4FromBits_octets_lt _).2.2.1
  · exact (ipv4FromBits_octets_lt _).2.2.2

/-- Witness for `get_local_addr_port_spec` at the doc-comment example:
base address `10.0.0.1`, 100 connections per address, index 10. -/
theorem get_local_addr_port_spec_witness :
    (get_local_addr_port (10, 0, 0, 1) 100 10).2 = (49152 + 10 % 100) % 2 ^ 16
      ∧ (get_local_addr_port (10, 0, 0, 1) 100 10).2 = 49152 + 10 % 100
      ∧ ipv4ToBits (get_local_addr_port (10, 0, 0, 1) 100 10).1 =
          (ipv4ToBits (10, 0, 0, 1) + 10 / 100 + 1) % 2 ^ 32
      ∧ (get_local_addr_port (10, 0, 0, 1) 100 10).1.1 < 256
      ∧ (get_local_addr_port (10, 0, 0, 1) 100 10).1.2.1 < 256
      ∧ (get_local_addr_port (10, 0, 0, 1) 100 10).1.2.2.1 < 256
      ∧ (get_local_addr_port (10, 0, 0, 1) 100 10).1.2.2.2 < 256 := by
  have h := get_local_addr_port_spec (10, 0, 0, 1) 100 10 (by decide)
  exact ⟨h.1, h.2.1 (by decide), h.2.2.1, h.2.2.2.1, h.2.2.2.2.1,
    h.2.2.2.2.2.1, h.2.2.2.2.2.2⟩

theorem cursorFrom_eq_add_sum (c : Nat) (ds : List Nat) :
    cursorFrom c ds = c + ds.sum := by
  induction ds generalizing c with
  | nil => simp [cursorFrom]
  | cons n ds ih => simp [cursorFrom, allocate, ih, List.sum_cons]; ring

theorem slicesFrom_length (c : Nat) (ds : List Nat) :
    (slicesFrom c ds).length = ds.length := by
  induction ds generalizing c with
  | nil => rfl
  | cons n ds ih => simp [slicesFrom, ih]

/-- The `i`-th slice starts right after the sum of the draws before it and
has the `i`-th draw as its length. -/
theorem slicesFrom_getD (c : Nat) (ds : List Nat) (i : Nat)
    (hi : i < ds.length) :
    (slicesFrom c ds).getD i (0, 0) = (c + (ds.take i).sum, ds.getD i 0) := by
  induction ds generalizing c i with
  | nil => simp at hi
  | cons n ds ih =>
    cases i with
    | zero => simp [slicesFrom, allocate]
    | succ i =>
      simp only [slicesFrom, allocate, List.getD_cons_succ, List.take_succ_cons,
        List.sum_cons]
      rw [ih (c + n) i (by simpa using hi)]
      simp only [List.getD]
      ring_nf

theorem sum_take_mono (ds : List Nat) {i j : Nat} (hij : i ≤ j) :
    (ds.take i).sum ≤ (ds.take j).sum := by
  induction ds generalizing i j with
  | nil => simp
  | cons n ds ih =>
    cases i with
    | zero => simp
    | succ i =>
      cases j with
      | zero => omega
      | succ j =>
        simp only [List.take_succ_cons, List.sum_cons]
        exact Nat.add_le_add_left (ih (Nat.le_of_succ_le_succ hij)) n

theorem sum_take_succ_getD (ds : List Nat) (i : Nat) (hi : i < ds.length) :
    (ds.take (i + 1)).sum = (ds.take i).sum + ds.getD i 0 := by
  induction ds generalizing i with
  | nil => simp at hi
  | cons n ds ih =>
    cases i with
    | zero => simp
    | succ i =>
      simp only [List.take_succ_cons, List.sum_cons, List.getD_cons_succ]
      rw [ih i (by simpa using hi)]
      ring

/-- On a run whose cumulative draws never reach `2^64`, the `usize` cursor
never wraps: the wrapping cursor coincides with the unbounded abstraction. -/
theorem cursorFrom64_eq_cursorFrom (c : Nat) (ds : List Nat)
    (h : c + ds.sum < 2 ^ 64) : cursorFrom64 c ds = cursorFrom c ds := by
  induction ds generalizing c with
  | nil => rfl
  | cons n ds ih =>
    simp only [List.sum_cons] at h
    simp only [cursorFrom64, cursorFrom, allocate64, allocate]
    rw [Nat.mod_eq_of_lt (by omega)]
    exact ih (c + n) (by omega)

/-- On a run whose cumulative draws never reach `2^64`, the slices of the
wrapping allocator coincide with the unbounded abstraction. -/
theorem slicesFrom64_eq_slicesFrom (c : Nat) (ds : List Nat)
    (h : c + ds.sum < 2 ^ 64) : slicesFrom64 c ds = slicesFrom c ds := by
  induction ds generalizing c with
  | nil => rfl
  | cons n ds ih =>
    simp only [List.sum_cons] at h
    simp only [slicesFrom64, slicesFrom, allocate64, allocate]
    rw [Nat.mod_eq_of_lt (by omega)]
    exact congrArg _ (ih (c + n) (by omega))

/-- **C4 counterexample.** The claim asserts disjoint, strictly increasing
slices and a never-decreasing cursor for *every* sequence of draws, but
the `usize` cursor wraps modulo `2^64`: with draws
`[2^64 - 1024, 2048]` the second slice starts at 0 instead of the claimed
`1024 + (2^64 - 1024) = 2^64`, the cursor drops from 1024 to 0 after the
first allocation, the slices are not in increasing order, and port 1500
lies in both slices — they overlap. -/
theorem endpoints_port_slices_wrap_cex :
    portSlices64 [2 ^ 64 - 1024, 2048] = [(1024, 2 ^ 64 - 1024), (0, 2048)]
      ∧ ((portSlices64 [2 ^ 64 - 1024, 2048]).getD 1 (0, 0)).1 ≠
          1024 + ([2 ^ 64 - 1024, 2048].take 1).sum
      ∧ cursorFrom64 1024 [2 ^ 64 - 1024] = 0
      ∧ cursorFrom64 1024 [2 ^ 64 - 1024] < cursorFrom64 1024 []
      ∧ ((portSlices64 [2 ^ 64 - 1024, 2048]).getD 1 (0, 0)).1 <
          ((portSlices64 [2 ^ 64 - 1024, 2048]).getD 0 (0, 0)).1
      ∧ ((portSlices64 [2 ^ 64 - 1024, 2048]).getD 0 (0, 0)).1 ≤ 1500
      ∧ 1500 < ((portSlices64 [2 ^ 64 - 1024, 2048]).getD 0 (0, 0)).1 +
          ((portSlices64 [2 ^ 64 - 1024, 2048]).getD 0 (0, 0)).2
      ∧ ((portSlices64 [2 ^ 64 - 1024, 2048]).getD 1 (0, 0)).1 ≤ 1500
      ∧ 1500 < ((portSlices64 [2 ^ 64 - 1024, 2048]).getD 1 (0, 0)).1 +
          ((portSlices64 [2 ^ 64 - 1024, 2048]).getD 1 (0, 0)).2 := by
  refine ⟨by decide, by decide, by decide, by decide, by decide, by decide,
    by decide, by decide, by decide⟩

/-- **C4 (amended).** For every sequence of Endpoints worker constructions
with draws `ds` whose total stays below the `usize` range —
`1024 + sum ds < 2^64`, so the cursor never wraps — the slices handed out
are exactly `[1024, 1024+n_1)`, `[1024+n_1, 1024+n_1+n_2)`, …: the `i`-th
slice starts at `1024` plus the sum of the earlier draws and has length
`ds[i]` (exactness); consecutive slices are contiguous; every port of an
earlier slice lies strictly below the start of any later slice (pairwise
disjoint, strictly increasing); and the allocator cursor never decreases
across the sequence.  Past `2^64` the cursor wraps and the slices
overlap. -/
theorem endpoints_port_slices (ds : List Nat) (i j : Nat)
    (hi : i < ds.length) (hj : j < ds.length) (hij : i < j)
    (hsum : 1024 + ds.sum < 2 ^ 64) :
    (portSlices64 ds).getD i (0, 0) = (1024 + (ds.take i).sum, ds.getD i 0)
    ∧ (j = i + 1 →
        ((portSlices64 ds).getD j (0, 0)).1 =
          ((portSlices64 ds).getD i (0, 0)).1 +
            ((portSlices64 ds).getD i (0, 0)).2)
    ∧ (∀ p, ((portSlices64 ds).getD i (0, 0)).1 ≤ p →
        p < ((portSlices64 ds).getD i (0, 0)).1 +
              ((portSlices64 ds).getD i (0, 0)).2 →
        p < ((portSlices64 ds).getD j (0, 0)).1)
    ∧ cursorFrom64 1024 (ds.take i) ≤ cursorFrom64 1024 (ds.take j) := by
  have hps : portSlices64 ds = slicesFrom 1024 ds :=
    slicesFrom64_eq_slicesFrom 1024 ds hsum
  have htake : ∀ k, k ≤ ds.length → 1024 + (ds.take k).sum < 2 ^ 64 := by
    intro k hk
    have h1 := sum_take_mono ds hk
    rw [List.take_length] at h1
    omega
  have hci := cursorFrom64_eq_cursorFrom 1024 (ds.take i)
    (htake i (Nat.le_of_lt hi))
  have hcj := cursorFrom64_eq_cursorFrom 1024 (ds.take j)
    (htake j (Nat.le_of_lt hj))
  have hgi := slicesFrom_getD 1024 ds i hi
  have hgj := slicesFrom_getD 1024 ds j hj
  have hstep := sum_take_succ_getD ds i hi
  have hmono : (ds.take (i + 1)).sum ≤ (ds.take j).sum := sum_take_mono ds hij
  refine ⟨?_, ?_, ?_, ?_⟩
  · rw [hps, hgi]
  · intro hji
    rw [hps, hgi, hgj, hji, hstep]
    simp only
    ring
  · intro p hp1 hp2
    rw [hps, hgi] at hp1 hp2
    rw [hps, hgj]
    simp only at hp1 hp2 ⊢
    omega
  · rw [hci, hcj, cursorFrom_eq_add_sum, cursorFrom_eq_add_sum]
    exact Nat.add_le_add_left (sum_take_mono ds (Nat.le_of_lt hij)) 1024

/-- Witness for `endpoints_port_slices` at the draws `[2, 3, 0, 4]`,
`i = 1`, `j = 2`, instantiating the disjointness conjunct at port 1027. -/
theorem endpoints_port_slices_witness :
    (portSlices64 [2, 3, 0, 4]).getD 1 (0, 0) =
        (1024 + ([2, 3, 0, 4].take 1).sum, [2, 3, 0, 4].getD 1 0)
      ∧ ((portSlices64 [2, 3, 0, 4]).getD 2 (0, 0)).1 =
          ((portSlices64 [2, 3, 0, 4]).getD 1 (0, 0)).1 +
            ((portSlices64 [2, 3, 0, 4]).getD 1 (0, 0)).2
      ∧ 1027 < ((portSlices64 [2, 3, 0, 4]).getD 2 (0, 0)).1
      ∧ cursorFrom64 1024 ([2, 3, 0, 4].take 1) ≤
          cursorFrom64 1024 ([2, 3, 0, 4].take 2) := by
  have h := endpoints_port_slices [2, 3, 0, 4] 1 2 (by decide) (by decide)
    (by decide) (by decide)
  refine ⟨h.1, h.2.1 rfl, h.2.2.1 1027 ?_ ?_, h.2.2.2⟩ <;> rw [h.1] <;> decide

/-- **C9.** A distribution draw of `0` leaves the allocator cursor
unchanged — `allocate c 0` returns the empty slice `(c, 0)` and the cursor
stays `c`, so any number of consecutive zero-draws is a no-op on the
cursor — and the worker built from the resulting empty slice spawns no
listener threads and returns successfully (thus still taking its turn in
the outer `loop { run_payload() }` restart cadence). -/
theorem allocate_zero_noop (c k : Nat) (r : PortRange) (hr : r.length = 0) :
    allocate c 0 = ((c, 0), c)
      ∧ cursorFrom c (List.replicate k 0) = c
      ∧ spawnedListeners r = []
      ∧ endpointRunPayload r = .ok [] := by
  refine ⟨rfl, ?_, ?_, ?_⟩
  · rw [cursorFrom_eq_add_sum]
    simp
  · unfold spawnedListeners rangePorts PortRange.get_range
    rw [hr]
    simp only [Nat.add_zero]
    have : r.start % 2 ^ 16 ≤ r.start := Nat.mod_le _ _
    rw [Nat.sub_eq_zero_of_le this]
    rfl
  · unfold endpointRunPayload spawnedListeners rangePorts PortRange.get_range
    rw [hr]
    simp only [Nat.add_zero]
    have : r.start % 2 ^ 16 ≤ r.start := Nat.mod_le _ _
    rw [Nat.sub_eq_zero_of_le this]
    rfl

/-- Witness for `allocate_zero_noop`: cursor 1337, three zero-draws, the
worker whose slice is `[1024, 1024)`. -/
theorem allocate_zero_noop_witness :
    allocate 1337 0 = ((1337, 0), 1337)
      ∧ cursorFrom 1337 (List.replicate 3 0) = 1337
      ∧ spawnedListeners ⟨1024, 0⟩ = []
      ∧ endpointRunPayload ⟨1024, 0⟩ = .ok [] :=
  allocate_zero_noop 1337 3 ⟨1024, 0⟩ rfl

/-- **C10.** `PortRange::get_range` computes the range end as the 16-bit
sum `start + length`: under the precondition `start + length ≤ 65535` the
worker listens on exactly the intended slice `[start, start + length)`,
but nothing checks the precondition — the allocator cursor grows without
bound (e.g. a single draw of 70000 leaves it at 71024) — and a slice whose
sum passes 65535 wraps: the worker built on `start = 60000`,
`length = 10000` gets the range `60000..4464`, which is empty instead of
the intended 10000 ports. -/
theorem portrange_overflow (s l : Nat) (h : s + l ≤ 65535) :
    (PortRange.mk s l).get_range = (s, s + l)
      ∧ spawnedListeners ⟨s, l⟩ = List.range' s l
      ∧ cursorFrom 1024 [70000] = 71024
      ∧ 65535 < cursorFrom 1024 [70000]
      ∧ (PortRange.mk 60000 10000).get_range = (60000, 4464)
      ∧ spawnedListeners ⟨60000, 10000⟩ = []
      ∧ spawnedListeners ⟨60000, 10000⟩ ≠ List.range' 60000 10000 := by
  have hget : (PortRange.mk s l).get_range = (s, s + l) := by
    unfold PortRange.get_range
    simp only
    rw [Nat.mod_eq_of_lt (by omega)]
  refine ⟨hget, ?_, by rfl, by decide, by rfl, by rfl, ?_⟩
  · unfold spawnedListeners
    rw [hget]
    unfold rangePorts
    simp
  · intro hcontra
    have := congrArg List.length hcontra
    simp [spawnedListeners, rangePorts, PortRange.get_range] at this

/-- **C5 counterexample.** With recorded children `[1, 2, 3]` and a wait
oracle yielding `ECHILD` on child 2, the source's reaper aborts at child 2
(the `unwrap` panics) instead of continuing with child 3 as the claim
states: it differs from the claim's tolerant reaper, which finishes with
`[1, 3]`. -/
theorem reaper_echild_cex :
    reaper echildOnTwo [1, 2, 3] = .error .echild
      ∧ reaperSpecTolerant echildOnTwo [1, 2, 3] = .ok [1, 3]
      ∧ reaper echildOnTwo [1, 2, 3] ≠ reaperSpecTolerant echildOnTwo [1, 2, 3] := by
  refine ⟨rfl, rfl, ?_⟩
  intro h
  rw [show reaper echildOnTwo [1, 2, 3] = .error .echild from rfl,
    show reaperSpecTolerant echildOnTwo [1, 2, 3] = .ok [1, 3] from rfl] at h
  exact Except.noConfusion h

/-- **C5 (amended).** The supervisor's reaper waits on every recorded child
in order, but *every* wait failure is fatal, `ECHILD` included: if all
waits succeed the reaper finishes having waited on every child, and the
first child whose wait fails — with an error of any kind — aborts the
reaper with that error, the remaining children unwaited. -/
theorem reaper_first_failure_fatal (res : Nat → Except Errno Unit)
    (cs : List Nat) (hok : ∀ c ∈ cs, res c = .ok ()) :
    reaper res cs = .ok cs
      ∧ ∀ c post e, res c = .error e →
          reaper res (cs ++ c :: post) = .error e := by
  constructor
  · induction cs with
    | nil => rfl
    | cons b bs ih =>
      have hb : res b = .ok () := hok b (List.mem_cons_self b bs)
      have hbs : ∀ x ∈ bs, res x = .ok () := fun x hx =>
        hok x (List.mem_cons_of_mem b hx)
      simp [reaper, hb, ih hbs, Except.map]
  · intro c post e hc
    induction cs with
    | nil => simp [reaper, hc]
    | cons b bs ih =>
      have hb : res b = .ok () := hok b (List.mem_cons_self b bs)
      have hbs : ∀ x ∈ bs, res x = .ok () := fun x hx =>
        hok x (List.mem_cons_of_mem b hx)
      simp [reaper, hb, ih hbs, Except.map]

/-- Witness for `reaper_first_failure_fatal`: children `[1, 3]` all wait
cleanly, and appending child 2 (whose wait yields `ECHILD`) aborts the
reaper with that very error. -/
theorem reaper_first_failure_fatal_witness :
    reaper echildOnTwo [1, 3] = .ok [1, 3]
      ∧ reaper echildOnTwo ([1, 3] ++ 2 :: [4]) = .error .echild := by
  have h := reaper_first_failure_fatal echildOnTwo [1, 3]
    (by intro c hc; fin_cases hc <;> rfl)
  exact ⟨h.1, h.2 2 [4] .echild rfl⟩

/-- **C8 counterexample.** With `per_core = false`, four online cores and
`workers = 2`, the supervisor forks exactly two children for core id 0 —
but neither child pins itself: the `set_for_current` call is guarded by
`if config.per_core`, so the claim that every child is bound to core 0 is
false. -/
theorem fanout_no_pin_cex :
    fanout false [0, 1, 2, 3] 2 = [⟨0, 0, false⟩, ⟨0, 1, false⟩]
      ∧ (fanout false [0, 1, 2, 3] 2).length = 2
      ∧ ¬∀ ch ∈ fanout false [0, 1, 2, 3] 2, ch.pinned = true := by
  decide

/-- **C8 (amended).** When `per_core = false`, the supervisor forks exactly
`workers` children in total, every one constructed for core id 0 — but no
child pins itself to that core: pinning happens only when `per_core` is
true. -/
theorem fanout_per_core_false (online : List Nat) (workers : Nat) :
    (fanout false online workers).length = workers
      ∧ ∀ ch ∈ fanout false online workers, ch.cpu = 0 ∧ ch.pinned = false := by
  constructor
  · simp [fanout, coreIdsFor]
  · intro ch hch
    simp only [fanout, coreIdsFor, if_neg (Bool.false_ne_true)] at hch
    simp only [List.flatMap_cons, List.flatMap_nil, List.append_nil,
      List.mem_map, List.mem_range] at hch
    obtain ⟨p, _, rfl⟩ := hch
    exact ⟨rfl, rfl⟩

/-- Witness for `fanout_per_core_false`: two online cores, three workers;
the middle child is unpinned on core 0. -/
theorem fanout_per_core_false_witness :
    (fanout false [5, 6] 3).length = 3
      ∧ (ChildSpawn.mk 0 1 false).cpu = 0
      ∧ (ChildSpawn.mk 0 1 false).pinned = false := by
  have h := fanout_per_core_false [5, 6] 3
  exact ⟨h.1, h.2 ⟨0, 1, false⟩ (by decide)⟩

/-- Witness for `portrange_overflow` at `start = 1024`, `length = 100`. -/
theorem portrange_overflow_witness :
    (PortRange.mk 1024 100).get_range = (1024, 1024 + 100)
      ∧ spawnedListeners ⟨1024, 100⟩ = List.range' 1024 100
      ∧ cursorFrom 1024 [70000] = 71024
      ∧ 65535 < cursorFrom 1024 [70000]
      ∧ (PortRange.mk 60000 10000).get_range = (60000, 4464)
      ∧ spawnedListeners ⟨60000, 10000⟩ = []
      ∧ spawnedListeners ⟨60000, 10000⟩ ≠ List.range' 60000 10000 :=
  portrange_overflow 1024 100 (by decide)

/-- **C7 counterexample.** The claim admits *any* value of `arrival_rate`,
but `Exp::new(arrival_rate).unwrap()` runs before the tight loop is
entered: at `arrival_rate = -1` the construction fails and the unwrap
panics even though `tight_loop = true` never samples the distribution. -/
theorem syscalls_neg_rate_cex :
    syscallsSetup (-1) = .error .lambdaTooSmall
      ∧ (syscallsLoopIter true 0).paced = false := by
  constructor
  · unfold syscallsSetup expNew
    norm_num
  · rfl

/-- **C7 (amended).** For every syscalls workload with `tight_loop = true`
and a non-negative `arrival_rate` — including `arrival_rate = 0` — the
setup before the loop succeeds (`Exp::new` only rejects negative rates)
and every iteration of the tight loop issues the syscall, increments the
counter and skips pacing entirely, never touching the sampler. -/
theorem syscalls_tight_loop_spec (rate : ℚ) (h : 0 ≤ rate) :
    syscallsSetup rate = .ok rate
      ∧ ∀ n, (syscallsLoopIter true n).counter = n + 1
          ∧ (syscallsLoopIter true n).paced = false := by
  constructor
  · unfold syscallsSetup expNew
    rw [if_neg (not_lt.mpr h)]
  · intro n
    exact ⟨rfl, rfl⟩

/-- Witness for `syscalls_tight_loop_spec` at `arrival_rate = 0`, fifth
iteration. -/
theorem syscalls_tight_loop_spec_witness :
    syscallsSetup 0 = .ok 0
      ∧ (syscallsLoopIter true 5).counter = 6
      ∧ (syscallsLoopIter true 5).paced = false := by
  have h := syscalls_tight_loop_spec 0 le_rfl
  exact ⟨h.1, h.2 5⟩

theorem chain_le_of_le_head {t0 t : Nat} {ts : List Nat} (h0 : t0 ≤ t)
    (h : List.Chain (· ≤ ·) t ts) : List.Chain (· ≤ ·) t0 ts := by
  cases ts with
  | nil => exact List.Chain.nil
  | cons u us =>
    rw [List.chain_cons] at h ⊢
    exact ⟨le_trans h0 h.1, h.2⟩

/-- Every send happens more than `interval` after the timer value it was
issued against. -/
theorem sendTrace_head_bound (interval : Nat) (t0 : Nat) (ts : List Nat)
    (hchain : List.Chain (· ≤ ·) t0 ts) :
    ∀ x ∈ sendTrace interval t0 ts, t0 + interval < x := by
  induction ts generalizing t0 with
  | nil => intro x hx; simp [sendTrace] at hx
  | cons t ts ih =>
    rw [List.chain_cons] at hchain
    intro x hx
    unfold sendTrace at hx
    by_cases hsend : interval < t - t0
    · rw [if_pos hsend] at hx
      rcases List.mem_cons.mp hx with rfl | hx
      · omega
      · have := ih t hchain.2 x hx
        omega
    · rw [if_neg hsend] at hx
      exact ih t0 (chain_le_of_le_head hchain.1 hchain.2) x hx

theorem sendTrace_chain (interval : Nat) (t0 : Nat) (ts : List Nat)
    (hchain : List.Chain (· ≤ ·) t0 ts) :
    List.Chain' (fun a b => a + interval < b) (sendTrace interval t0 ts) := by
  induction ts generalizing t0 with
  | nil => exact List.chain'_nil
  | cons t ts ih =>
    rw [List.chain_cons] at hchain
    unfold sendTrace
    by_cases hsend : interval < t - t0
    · rw [if_pos hsend]
      rw [List.chain'_cons']
      refine ⟨?_, ih t hchain.2⟩
      intro y hy
      have hmem : y ∈ sendTrace interval t ts := by
        cases hsend : sendTrace interval t ts with
        | nil => simp [hsend] at hy
        | cons a l => simp [hsend] at hy; simp [hsend, hy]
      exact sendTrace_head_bound interval t ts hchain.2 y hmem
    · rw [if_neg hsend]
      exact ih t0 (chain_le_of_le_head hchain.1 hchain.2)

/-- **C6.** For every pair of send events performed on any two sockets of
the population, the two events are separated by more than `send_interval`
milliseconds: given any (time-ordered) sequence of `may_send` checks
against the global send timer, the instants at which sends actually happen
are pairwise more than `send_interval` apart — at most one socket of the
whole population sends per `send_interval` window. -/
theorem send_throttle_spec (interval : Nat) (t0 : Nat) (ts : List Nat)
    (hchain : List.Chain (· ≤ ·) t0 ts) :
    List.Pairwise (fun a b => a + interval < b) (sendTrace interval t0 ts) := by
  haveI : IsTrans Nat fun a b => a + interval < b :=
    ⟨fun a b c hab hbc => by omega⟩
  exact List.chain'_iff_pairwise.mp (sendTrace_chain interval t0 ts hchain)

/-- Witness for `send_throttle_spec`: `send_interval = 100`, timer started
at 0, checks at 50, 150, 200, 260, 400 and 505 ms. -/
theorem send_throttle_spec_witness :
    sendTrace 100 0 [50, 150, 200, 260, 400, 505] = [150, 260, 400, 505]
      ∧ List.Pairwise (fun a b => a + 100 < b)
          (sendTrace 100 0 [50, 150, 200, 260, 400, 505]) :=
  ⟨rfl, send_throttle_spec 100 0 [50, 150, 200, 260, 400, 505]
    (by norm_num [List.chain_cons])⟩

/-- **C2 (code bug).** The invariant `total_conns = statics + |dyn|` holds
at setup but is *not* preserved at every loop-iteration boundary: with
`connections_dyn_max = 0` (and no statics), no preemption, an arrival
increments `total_conns` before discovering that the dynamic map is at
capacity, inserts nothing, and queues nothing for close — the iteration
ends with `total_conns = 1` against an empty population.  (The spec's own
design notes flag exactly this: `total_conns` should be incremented only
after a successful insert.) -/
theorem total_conns_overcount_bug :
    connInvariant ⟨0, 0, false⟩ (initClientState ⟨0, 0, false⟩)
      ∧ loopIter ⟨0, 0, false⟩ true 0 0 5 (initClientState ⟨0, 0, false⟩) =
          some { slots := [], dyn := [], total_conns := 1 }
      ∧ ¬connInvariant ⟨0, 0, false⟩ { slots := [], dyn := [], total_conns := 1 } := by
  refine ⟨rfl, rfl, ?_⟩
  intro h
  exact Nat.noConfusion h

/-- **C3 (code bug).** With one static socket, `connections_dyn_max = 1`
and preemption enabled, take the reachable state after the first dynamic
arrival (first conjunct).  At the next arrival the dynamic map is at
capacity, and the only value `gen_range(0..1)` can draw is 0 — so the
evicted victim is deterministically `sockets.iter().nth(0)`: handle 0,
the *static* socket, which is not a key of the dynamic map.  The
`dynamic_sockets.remove` is a no-op, the map stays at capacity so no new
connection is inserted, and the close pass destroys the static socket —
contrary to the claim that the victim is drawn from the dynamic map and
never static. -/
theorem preempt_victim_static_bug :
    loopIter ⟨1, 1, true⟩ true 0 0 100 (initClientState ⟨1, 1, true⟩) =
        some { slots := [true, true], dyn := [(1, ⟨0, 100⟩)], total_conns := 2 }
      ∧ (occupiedHandles [true, true])[0]? = some 0
      ∧ lookupDyn [(1, ⟨0, 100⟩)] 0 = none
      ∧ loopIter ⟨1, 1, true⟩ true 0 10 50
          { slots := [true, true], dyn := [(1, ⟨0, 100⟩)], total_conns := 2 } =
          some { slots := [false, true], dyn := [(1, ⟨0, 100⟩)],
                 total_conns := 2 } := by
  refine ⟨rfl, rfl, rfl, rfl⟩
